import Mathlib

/-! Shallow embedding of the SalesStarLoadBalancer health-checking and selection
engine (src/load-balancer-refactored.py, with src/load-balancer-app.py as the
earlier variant of the same logic).

Python floats are modelled as rationals (ℚ); wall-clock instants (time.time())
are rationals passed explicitly; the network is modelled as an explicit probe
outcome supplied to each call.  The requests session and the thread pool are
external resources and carry no state relevant to the claims; they are not
modelled.  The `last_checked` wall-clock string field of ServerHealth is
likewise omitted (no claim mentions it).
-/

namespace SalesStar

/-- Enum `HealthStatus` of load-balancer-refactored.py. -/
inductive HealthStatus where
  | healthy
  | unhealthy
  | error
  deriving DecidableEq, Repr

/-- Dataclass `ServerConfig`: name, url, static weight. -/
structure ServerConfig where
  name : String
  url : String
  weight : Int := 1
  deriving DecidableEq, Repr

/-- Dataclass `ServerHealth`: the outcome of one probe. -/
structure ServerHealth where
  name : String
  url : String
  health : HealthStatus
  response_time : Option ℚ
  score : ℚ
  status_code : Option Int := none
  error : Option String := none
  deriving DecidableEq, Repr

/-- Python `round(x, 2)`: round to two decimal places.  (Python rounds exact
ties to even; Mathlib `round` rounds them up — the claims never evaluate at an
exact tie of a hundredth, so the models agree on every input used here.) -/
def round2 (x : ℚ) : ℚ := (round (x * 100) : ℤ) / 100

/-- Static method `HealthChecker._calculate_score`: piecewise score from response time in
milliseconds. -/
def calculateScore (response_time : ℚ) : ℚ :=
  if response_time < 100 then 100
  else if response_time < 500 then 100 - (response_time - 100) * (2/10)
  else max 1 (100 - response_time * (1/10))

example : calculateScore 50 = 100 := by norm_num [calculateScore]
example : calculateScore 499 = 202/10 := by norm_num [calculateScore]
example : calculateScore 500 = 50 := by norm_num [calculateScore]
example : calculateScore 1200 = 1 := by norm_num [calculateScore]

/-- The decoded body of a `/health` HTTP response, as `check_server` consumes
it: either `response.json()` raises (undecodable), or it yields a dict whose
`"score"` entry is present or absent (`health_data.get("score", fallback)`). -/
inductive Body where
  | undecodable
  | json (score : Option ℚ)
  deriving DecidableEq, Repr

/-- What one network probe of `GET url/health` produced: a transport failure
(`requests.RequestException` — connection refused, timeout, DNS, TLS) carrying
its message, or a completed HTTP response with status code, body, and measured
round-trip time in milliseconds. -/
inductive ProbeOutcome where
  | transportError (msg : String)
  | response (status_code : Int) (body : Body) (response_time : ℚ)
  deriving DecidableEq, Repr

/-- The try/except body of `HealthChecker.check_server` (lines 113-163):
turn one probe outcome for one server into a `ServerHealth` record. -/
def probeResult (server : ServerConfig) (outcome : ProbeOutcome) : ServerHealth :=
  match outcome with
  | .transportError msg =>
      { name := server.name
        url := server.url
        health := .error
        response_time := none
        score := 0
        status_code := none
        error := some msg }
  | .response code body rt =>
      if code = 200 then
        match body with
        | .json scoreField =>
            { name := server.name
              url := server.url
              health := .healthy
              response_time := some (round2 rt)
              score := scoreField.getD (calculateScore rt)
              status_code := some code
              error := none }
        | .undecodable =>
            { name := server.name
              url := server.url
              health := .unhealthy
              response_time := some (round2 rt)
              score := 0
              status_code := some code
              error := some "Invalid health response" }
      else
        { name := server.name
          url := server.url
          health := .unhealthy
          response_time := some (round2 rt)
          score := 0
          status_code := some code
          error := none }

/-- The mutable state of a `HealthChecker`: its configuration and the cache
dict mapping a server url to the latest record and its capture time.  The
dict is modelled as an association list where insertion prepends, so lookup
finds the newest binding — observationally the overwriting dict of Python. -/
structure HealthChecker where
  timeout : Int
  cache_ttl : Int
  cache : List (String × ServerHealth × ℚ)
  deriving DecidableEq, Repr

/-- Dict lookup `self.cache[server_url]` / `server_url in self.cache`:
first (newest) binding for the key, if any. -/
def cacheLookup (cache : List (String × ServerHealth × ℚ)) (url : String) :
    Option (ServerHealth × ℚ) :=
  match cache with
  | [] => none
  | (u, r, t) :: rest => if u = url then some (r, t) else cacheLookup rest url

/-- Dict assignment `self.cache[server.url] = (health, time.time())`. -/
def cacheInsert (cache : List (String × ServerHealth × ℚ)) (url : String)
    (r : ServerHealth) (t : ℚ) : List (String × ServerHealth × ℚ) :=
  (url, r, t) :: cache

/-- Constructor `HealthChecker.__init__(timeout=5, max_retries=2, cache_ttl=10)`: stores
the timeout and TTL and starts with an empty cache.  `max_retries` only
configures the transport session, which is not modelled; the constructor
performs no validation of any argument. -/
def healthCheckerInit (timeout : Int) (_max_retries : Int) (cache_ttl : Int) :
    HealthChecker :=
  { timeout := timeout, cache_ttl := cache_ttl, cache := [] }

/-- Method `HealthChecker._is_cache_valid`: a cached entry exists for the url and its
age `now - timestamp` is strictly below the TTL. -/
def isCacheValid (hc : HealthChecker) (now : ℚ) (url : String) : Bool :=
  match cacheLookup hc.cache url with
  | none => false
  | some (_, ts) => now - ts < (hc.cache_ttl : ℚ)

/-- Method `HealthChecker.check_server`: return the cached record when it is still
fresh at instant `now`; otherwise perform the probe (whose outcome the
environment supplies), cache its record stamped `now`, and return it.  The
third component records whether a network probe was issued. -/
def check_server (hc : HealthChecker) (server : ServerConfig) (now : ℚ)
    (outcome : ProbeOutcome) : ServerHealth × HealthChecker × Bool :=
  match cacheLookup hc.cache server.url with
  | some (rec, ts) =>
      if now - ts < (hc.cache_ttl : ℚ) then
        (rec, hc, false)
      else
        let h := probeResult server outcome
        (h, { hc with cache := cacheInsert hc.cache server.url h now }, true)
  | none =>
      let h := probeResult server outcome
      (h, { hc with cache := cacheInsert hc.cache server.url h now }, true)

/-- Method `HealthChecker.check_all_servers_parallel`: one record per server, results
collected in submission order (`futures` are created by iterating the server
list and `future.result()` is read in that same order).  The shared cache is
threaded through; the probe outcome for each server is supplied by the
environment as a function of its url. -/
def check_all_servers (hc : HealthChecker) (servers : List ServerConfig)
    (now : ℚ) (outcomes : String → ProbeOutcome) :
    List ServerHealth × HealthChecker :=
  match servers with
  | [] => ([], hc)
  | s :: rest =>
      let r := check_server hc s now (outcomes s.url)
      let rs := check_all_servers r.2.1 rest now outcomes
      (r.1 :: rs.1, rs.2)

/-- The `max(healthy_servers, key=lambda x: x.score)` fold: Python `max`
keeps the current champion unless a strictly greater key appears, so the
first element of maximal score wins. -/
def maxByScore (best : ServerHealth) (rest : List ServerHealth) : ServerHealth :=
  match rest with
  | [] => best
  | x :: xs => maxByScore (if best.score < x.score then x else best) xs

/-- The pure selection step of `LoadBalancer.get_best_server` (and of
`get_highest_score_server` in load-balancer-app.py), over a snapshot: filter
to records with status healthy, return `none` when no record survives,
otherwise the maximum by score. -/
def selectBest (snapshot : List ServerHealth) : Option ServerHealth :=
  match snapshot.filter (fun s => s.health = HealthStatus.healthy) with
  | [] => none
  | h :: t => some (maxByScore h t)

/-- State of a `LoadBalancer`, per `LoadBalancer.__init__`: the server list and health checker
unchanged; no validation of names, urls, or weights. -/
structure LoadBalancer where
  servers : List ServerConfig
  health_checker : HealthChecker
  deriving DecidableEq, Repr

/-- Construction `LoadBalancer(servers, health_checker)`. -/
def loadBalancerInit (servers : List ServerConfig) (health_checker : HealthChecker) :
    LoadBalancer :=
  { servers := servers, health_checker := health_checker }

/-! Concrete fixtures used by witnesses and counterexamples. -/

/-- First entry of the SERVERS registry. -/
def exServer : ServerConfig :=
  { name := "server1", url := "https://landing1.aimachengine.com" }

/-- Claim C1: the latency-based scoring function is claimed monotonically
non-increasing in latency, but the code contradicts this (and its own
docstring "lower is better") at the 500 ms band boundary: a 499 ms response
scores 20.2 while a 500 ms response scores 50, so the slower response
outscores the faster one. -/
theorem score_increases_across_500ms_boundary :
    calculateScore 499 = 202/10 ∧ calculateScore 500 = 50 ∧
    (499 : ℚ) ≤ 500 ∧ calculateScore 499 < calculateScore 500 := by
  norm_num [calculateScore]

/-- Claim C6: for every response time the score lies in [1, 100], and each
latency band computes exactly the stated formula. -/
theorem score_bounds_and_band_formulas (ms : ℚ) :
    1 ≤ calculateScore ms ∧ calculateScore ms ≤ 100 ∧
    (ms < 100 → calculateScore ms = 100) ∧
    (100 ≤ ms → ms < 500 → calculateScore ms = 100 - (ms - 100) * (2/10)) ∧
    (500 ≤ ms → calculateScore ms = max 1 (100 - ms * (1/10))) := by
  unfold calculateScore
  split_ifs with h1 h2
  · exact ⟨by norm_num, by norm_num, fun _ => rfl,
      fun hge _ => absurd h1 (by linarith),
      fun hge => absurd h1 (by linarith)⟩
  · refine ⟨by linarith, by linarith, fun hlt => absurd hlt (by linarith),
      fun _ _ => rfl, fun hge => absurd h2 (by linarith)⟩
  · refine ⟨le_max_left 1 _, ?_, fun hlt => absurd hlt (by linarith),
      fun _ hlt => absurd hlt (by linarith), fun _ => rfl⟩
    exact max_le (by norm_num) (by linarith)

/-- Witness for claim C6 at a concrete mid-band latency. -/
theorem score_bounds_witness :
    calculateScore 250 = 100 - (250 - 100) * (2/10) :=
  (score_bounds_and_band_formulas 250).2.2.2.1 (by norm_num) (by norm_num)

/-- Claim C2 counterexample: a 200 response whose body decodes but lacks the
expected "score" field does NOT produce an Unhealthy record — `check_server`
reads the score with `health_data.get("score", fallback)`, so the record is
Healthy, its score is computed from latency (here 100, not 0), and no error
detail is set. -/
theorem missing_score_field_yields_healthy :
    (probeResult exServer (ProbeOutcome.response 200 (Body.json none) 42)).health
        = HealthStatus.healthy ∧
    (probeResult exServer (ProbeOutcome.response 200 (Body.json none) 42)).health
        ≠ HealthStatus.unhealthy ∧
    (probeResult exServer (ProbeOutcome.response 200 (Body.json none) 42)).score
        = 100 ∧
    (probeResult exServer (ProbeOutcome.response 200 (Body.json none) 42)).error
        = none := by
  refine ⟨rfl, by decide, ?_, rfl⟩
  show Option.getD none (calculateScore 42) = 100
  norm_num [calculateScore]

/-- Claim C2 as amended: on a 200 response with an undecodable body the record
is Unhealthy with score 0, error detail set and the measured response time
recorded; a 200 response whose body decodes but omits the score field yields a
Healthy record whose score is computed from latency, response time likewise
recorded. -/
theorem malformed_body_unhealthy_missing_field_healthy
    (s : ServerConfig) (rt : ℚ) :
    probeResult s (ProbeOutcome.response 200 Body.undecodable rt) =
      { name := s.name, url := s.url, health := HealthStatus.unhealthy,
        response_time := some (round2 rt), score := 0, status_code := some 200,
        error := some "Invalid health response" } ∧
    probeResult s (ProbeOutcome.response 200 (Body.json none) rt) =
      { name := s.name, url := s.url, health := HealthStatus.healthy,
        response_time := some (round2 rt), score := calculateScore rt,
        status_code := some 200, error := none } :=
  ⟨rfl, rfl⟩

/-- Claim C3 counterexample: construction performs no validation: a
`HealthChecker` with a non-positive timeout, and a `LoadBalancer` over a
registry with duplicate names and empty urls, are constructed without any
error. -/
theorem construction_accepts_invalid_config :
    (healthCheckerInit 0 2 10).timeout = 0 ∧
    ¬ (0 < (healthCheckerInit 0 2 10).timeout) ∧
    (loadBalancerInit [⟨"a", "", 1⟩, ⟨"a", "", 1⟩] (healthCheckerInit 0 2 10)).servers
        = [⟨"a", "", 1⟩, ⟨"a", "", 1⟩] := by
  exact ⟨rfl, by decide, rfl⟩

/-- Claim C3 as amended: construction never fails and stores the given
configuration unchanged, whatever its values — duplicate names, empty urls
and non-positive timeouts included. -/
theorem construction_stores_config_unvalidated
    (t r c : Int) (servers : List ServerConfig) (hc : HealthChecker) :
    healthCheckerInit t r c = { timeout := t, cache_ttl := c, cache := [] } ∧
    loadBalancerInit servers hc = { servers := servers, health_checker := hc } :=
  ⟨rfl, rfl⟩

/-! Cache behavior of `check_server`. -/

lemma check_server_hit (hc : HealthChecker) (server : ServerConfig) (now : ℚ)
    (outcome : ProbeOutcome) (rec : ServerHealth) (ts : ℚ)
    (hl : cacheLookup hc.cache server.url = some (rec, ts))
    (hfresh : now - ts < (hc.cache_ttl : ℚ)) :
    check_server hc server now outcome = (rec, hc, false) := by
  simp [check_server, hl, if_pos hfresh]

lemma check_server_stale (hc : HealthChecker) (server : ServerConfig) (now : ℚ)
    (outcome : ProbeOutcome) (rec : ServerHealth) (ts : ℚ)
    (hl : cacheLookup hc.cache server.url = some (rec, ts))
    (hstale : ¬ now - ts < (hc.cache_ttl : ℚ)) :
    check_server hc server now outcome =
      (probeResult server outcome,
       { hc with cache :=
          cacheInsert hc.cache server.url (probeResult server outcome) now },
       true) := by
  simp [check_server, hl, if_neg hstale]

lemma check_server_absent (hc : HealthChecker) (server : ServerConfig) (now : ℚ)
    (outcome : ProbeOutcome)
    (hl : cacheLookup hc.cache server.url = none) :
    check_server hc server now outcome =
      (probeResult server outcome,
       { hc with cache :=
          cacheInsert hc.cache server.url (probeResult server outcome) now },
       true) := by
  simp [check_server, hl]

lemma check_server_probed (hc : HealthChecker) (server : ServerConfig) (now : ℚ)
    (outcome : ProbeOutcome)
    (hprobed : (check_server hc server now outcome).2.2 = true) :
    check_server hc server now outcome =
      (probeResult server outcome,
       { hc with cache :=
          cacheInsert hc.cache server.url (probeResult server outcome) now },
       true) := by
  cases hl : cacheLookup hc.cache server.url with
  | none => exact check_server_absent hc server now outcome hl
  | some p =>
      by_cases hfresh : now - p.2 < (hc.cache_ttl : ℚ)
      · rw [check_server_hit hc server now outcome p.1 p.2 hl hfresh] at hprobed
        cases hprobed
      · exact check_server_stale hc server now outcome p.1 p.2 hl hfresh

lemma cacheLookup_insert_self (cache : List (String × ServerHealth × ℚ))
    (url : String) (r : ServerHealth) (t : ℚ) :
    cacheLookup (cacheInsert cache url r t) url = some (r, t) := by
  simp [cacheInsert, cacheLookup]

/-- Claim C7: at instant `now`, when a cached record for the server url has
age strictly below the TTL, `check_server` returns it unchanged, mutates
nothing and issues no probe; when the entry is absent or its age has reached
the TTL, the stale record is not returned — a probe is issued, and its fresh
record is returned and cached. -/
theorem cache_fresh_hit_stale_miss (hc : HealthChecker) (server : ServerConfig)
    (now : ℚ) (outcome : ProbeOutcome) :
    (∀ rec ts, cacheLookup hc.cache server.url = some (rec, ts) →
      now - ts < (hc.cache_ttl : ℚ) →
      check_server hc server now outcome = (rec, hc, false)) ∧
    (∀ rec ts, cacheLookup hc.cache server.url = some (rec, ts) →
      ¬ now - ts < (hc.cache_ttl : ℚ) →
      check_server hc server now outcome =
        (probeResult server outcome,
         { hc with cache :=
            cacheInsert hc.cache server.url (probeResult server outcome) now },
         true)) ∧
    (cacheLookup hc.cache server.url = none →
      check_server hc server now outcome =
        (probeResult server outcome,
         { hc with cache :=
            cacheInsert hc.cache server.url (probeResult server outcome) now },
         true)) :=
  ⟨fun rec ts hl hf => check_server_hit hc server now outcome rec ts hl hf,
   fun rec ts hl hs => check_server_stale hc server now outcome rec ts hl hs,
   fun hl => check_server_absent hc server now outcome hl⟩

/-- Record cached by a previous fresh probe of `exServer`. -/
def exCachedRecord : ServerHealth :=
  { name := "server1", url := "https://landing1.aimachengine.com",
    health := HealthStatus.healthy, response_time := some 42, score := 95,
    status_code := some 200, error := none }

/-- Checker state holding `exCachedRecord` cached at instant 100 with TTL 10. -/
def exChecker : HealthChecker :=
  { timeout := 3, cache_ttl := 10,
    cache := [("https://landing1.aimachengine.com", exCachedRecord, 100)] }

/-- Witness for claim C7: at instant 105 (age 5 < TTL 10) the cached record is
returned, the state is unchanged, and no probe is issued — even though the
supplied network outcome would have been a transport error. -/
theorem cache_fresh_hit_witness :
    check_server exChecker exServer 105 (ProbeOutcome.transportError "timeout")
      = (exCachedRecord, exChecker, false) :=
  (cache_fresh_hit_stale_miss exChecker exServer 105
      (ProbeOutcome.transportError "timeout")).1
    exCachedRecord 100 (by rfl) (by norm_num [exChecker])

/-- Claim C10: whenever `check_server` issues a probe, the resulting record —
whatever its status, Unhealthy and Error included — is written into the cache
stamped with the probe instant; a subsequent check within the TTL window
therefore returns that same record from the cache without probing again. -/
theorem every_outcome_cached_and_replayed (hc : HealthChecker)
    (server : ServerConfig) (now now2 : ℚ) (outcome outcome2 : ProbeOutcome)
    (hprobed : (check_server hc server now outcome).2.2 = true) :
    (check_server hc server now outcome).1 = probeResult server outcome ∧
    cacheLookup (check_server hc server now outcome).2.1.cache server.url
      = some ((check_server hc server now outcome).1, now) ∧
    (now2 - now < (hc.cache_ttl : ℚ) →
      check_server (check_server hc server now outcome).2.1 server now2 outcome2
        = ((check_server hc server now outcome).1,
           (check_server hc server now outcome).2.1, false)) := by
  have heq := check_server_probed hc server now outcome hprobed
  rw [heq]
  refine ⟨rfl, cacheLookup_insert_self hc.cache server.url _ now, fun hfresh => ?_⟩
  exact check_server_hit _ server now2 outcome2 _ now
    (cacheLookup_insert_self hc.cache server.url _ now) hfresh

/-- Witness for claim C10: a transport-error probe at instant 100 against a
freshly constructed checker is cached, and the re-check at instant 105 with a
would-be-successful outcome still returns the cached Error record, without
probing. -/
theorem error_record_replayed_witness :
    check_server
        (check_server (healthCheckerInit 3 2 10) exServer 100
          (ProbeOutcome.transportError "refused")).2.1
        exServer 105 (ProbeOutcome.response 200 (Body.json (some 90)) 42)
      = ((check_server (healthCheckerInit 3 2 10) exServer 100
            (ProbeOutcome.transportError "refused")).1,
         (check_server (healthCheckerInit 3 2 10) exServer 100
            (ProbeOutcome.transportError "refused")).2.1,
         false) :=
  (every_outcome_cached_and_replayed (healthCheckerInit 3 2 10) exServer 100 105
      (ProbeOutcome.transportError "refused")
      (ProbeOutcome.response 200 (Body.json (some 90)) 42) (by rfl)).2.2
    (by norm_num [healthCheckerInit])

/-! Selector: Python `max(..., key=...)` keeps the first element of maximal
key, so `maxByScore` returns the first maximal-score element of `b :: t`. -/

lemma maxByScore_ge (t : List ServerHealth) (b : ServerHealth) :
    b.score ≤ (maxByScore b t).score ∧
      ∀ x ∈ t, x.score ≤ (maxByScore b t).score := by
  induction t generalizing b with
  | nil => exact ⟨le_refl _, by simp⟩
  | cons x xs ih =>
      rcases ih (if b.score < x.score then x else b) with ⟨h1, h2⟩
      refine ⟨?_, ?_⟩
      · refine le_trans ?_ h1
        split
        · exact le_of_lt (by assumption)
        · exact le_refl _
      · intro y hy
        rcases List.mem_cons.mp hy with hy | hy
        · subst hy
          refine le_trans ?_ h1
          split
          · exact le_refl _
          · exact le_of_not_lt (by assumption)
        · exact h2 y hy

lemma maxByScore_first (t : List ServerHealth) (b : ServerHealth) :
    ∃ p s, b :: t = p ++ maxByScore b t :: s ∧
      ∀ y ∈ p, y.score < (maxByScore b t).score := by
  induction t generalizing b with
  | nil => exact ⟨[], [], rfl, by simp⟩
  | cons x xs ih =>
      by_cases hbx : b.score < x.score
      · rcases ih x with ⟨p, s, hdec, hlt⟩
        refine ⟨b :: p, s, ?_, ?_⟩
        · simp only [maxByScore, if_pos hbx]
          rw [List.cons_append]
          exact congrArg (b :: ·) hdec
        · intro y hy
          rcases List.mem_cons.mp hy with hy | hy
          · subst hy
            have hxm : x.score ≤ (maxByScore x xs).score := (maxByScore_ge xs x).1
            simp only [maxByScore, if_pos hbx]
            exact lt_of_lt_of_le hbx hxm
          · simpa only [maxByScore, if_pos hbx] using hlt y hy
      · rcases ih b with ⟨p, s, hdec, hlt⟩
        cases p with
        | nil =>
            refine ⟨[], x :: xs, ?_, by simp⟩
            have hb : b = maxByScore b xs := (List.cons.injEq _ _ _ _).mp hdec |>.1
            simp only [maxByScore, if_neg hbx]
            rw [List.nil_append, ← hb]
        | cons q p2 =>
            have hinj := (List.cons.injEq _ _ _ _).mp hdec
            have hq : b = q := hinj.1
            have hxs : xs = p2 ++ maxByScore b xs :: s := hinj.2
            refine ⟨b :: x :: p2, s, ?_, ?_⟩
            · simp only [maxByScore, if_neg hbx]
              rw [List.cons_append, List.cons_append]
              exact congrArg (b :: x :: ·) hxs
            · have hbm : b.score < (maxByScore b xs).score := by
                have := hlt q (by simp)
                rwa [← hq] at this
              intro y hy
              simp only [maxByScore, if_neg hbx]
              rcases List.mem_cons.mp hy with hy | hy
              · subst hy; exact hbm
              · rcases List.mem_cons.mp hy with hy | hy
                · subst hy
                  exact lt_of_le_of_lt (le_of_not_lt hbx) hbm
                · have : y ∈ q :: p2 := by simp [hy]
                  exact hlt y this

lemma filter_decomp (P : ServerHealth → Bool) :
    ∀ (l p : List ServerHealth) (r : ServerHealth) (s : List ServerHealth),
      l.filter P = p ++ r :: s →
      ∃ l1 l2, l = l1 ++ r :: l2 ∧ l1.filter P = p := by
  intro l
  induction l with
  | nil =>
      intro p r s h
      exact absurd h.symm (List.append_ne_nil_of_right_ne_nil p (by simp))
  | cons a l2 ih =>
      intro p r s h
      by_cases hPa : P a
      · rw [List.filter_cons_of_pos hPa] at h
        cases p with
        | nil =>
            have hinj := (List.cons.injEq _ _ _ _).mp h
            exact ⟨[], l2, by rw [List.nil_append, hinj.1], rfl⟩
        | cons q p2 =>
            have hinj := (List.cons.injEq _ _ _ _).mp h
            rcases ih p2 r s hinj.2 with ⟨l1, l3, hdec, hfil⟩
            refine ⟨a :: l1, l3, by rw [List.cons_append, hdec], ?_⟩
            rw [List.filter_cons_of_pos hPa, hfil, hinj.1]
      · rw [List.filter_cons_of_neg (by simpa using hPa)] at h
        rcases ih p r s h with ⟨l1, l3, hdec, hfil⟩
        refine ⟨a :: l1, l3, by rw [List.cons_append, hdec], ?_⟩
        rw [List.filter_cons_of_neg (by simpa using hPa), hfil]

/-- Claim C4: the selector considers only Healthy records: it returns none
exactly when the snapshot holds no Healthy record, and otherwise returns a
Healthy member of the snapshot whose score is maximal among the Healthy
records — a non-Healthy record is never returned, whatever its score field. -/
theorem best_is_max_over_healthy_only (l : List ServerHealth) :
    (selectBest l = none ↔ ∀ s ∈ l, s.health ≠ HealthStatus.healthy) ∧
    ∀ r, selectBest l = some r →
      r ∈ l ∧ r.health = HealthStatus.healthy ∧
      ∀ s ∈ l, s.health = HealthStatus.healthy → s.score ≤ r.score := by
  unfold selectBest
  cases hf : l.filter (fun s => s.health = HealthStatus.healthy) with
  | nil =>
      have hemp : ∀ s ∈ l, s.health ≠ HealthStatus.healthy := by
        intro s hs hcon
        have : s ∈ l.filter (fun s => s.health = HealthStatus.healthy) :=
          List.mem_filter.mpr ⟨hs, by simp [hcon]⟩
        rw [hf] at this
        cases this
      exact ⟨⟨fun _ => hemp, fun _ => rfl⟩, fun r hr => by cases hr⟩
  | cons h t =>
      constructor
      · constructor
        · intro hcon; cases hcon
        · intro hall
          have hmem : h ∈ l.filter (fun s => s.health = HealthStatus.healthy) := by
            rw [hf]; exact List.mem_cons_self h t
          have := List.mem_filter.mp hmem
          exact absurd (by simpa using this.2) (hall h this.1)
      · intro r hr
        have hrm : r = maxByScore h t := by
          have := (Option.some.injEq _ _).mp hr
          exact this.symm
        subst hrm
        rcases maxByScore_first t h with ⟨p, s, hdec, _⟩
        have hmem : maxByScore h t ∈ l.filter
            (fun s => s.health = HealthStatus.healthy) := by
          rw [hf, hdec]
          exact List.mem_append.mpr (Or.inr (List.mem_cons_self _ _))
        have hmf := List.mem_filter.mp hmem
        refine ⟨hmf.1, by simpa using hmf.2, ?_⟩
        intro s2 hs2 hh2
        have : s2 ∈ l.filter (fun s => s.health = HealthStatus.healthy) :=
          List.mem_filter.mpr ⟨hs2, by simp [hh2]⟩
        rw [hf] at this
        rcases List.mem_cons.mp this with hcase | hcase
        · subst hcase; exact (maxByScore_ge t s2).1
        · exact (maxByScore_ge t h).2 s2 hcase

/-- Claim C5: the selector breaks ties to the first position: whenever it
returns a record, that record is Healthy, its score is maximal among the
Healthy records of the snapshot, and every Healthy record strictly before it in the
snapshot scores strictly less — so among Healthy records sharing the maximum
score, the earliest one is returned; determinism over identical input is
definitional, `selectBest` being a pure function of the snapshot. -/
theorem best_ties_break_to_first_position (l : List ServerHealth)
    (r : ServerHealth) (hr : selectBest l = some r) :
    r.health = HealthStatus.healthy ∧
    (∀ s ∈ l, s.health = HealthStatus.healthy → s.score ≤ r.score) ∧
    ∃ l1 l2, l = l1 ++ r :: l2 ∧
      ∀ s ∈ l1, s.health = HealthStatus.healthy → s.score < r.score := by
  unfold selectBest at hr
  cases hf : l.filter (fun s => s.health = HealthStatus.healthy) with
  | nil => rw [hf] at hr; cases hr
  | cons h t =>
      rw [hf] at hr
      have hrm : r = maxByScore h t := ((Option.some.injEq _ _).mp hr).symm
      subst hrm
      rcases maxByScore_first t h with ⟨p, s, hdec, hlt⟩
      have hmem : maxByScore h t ∈ l.filter
          (fun s => s.health = HealthStatus.healthy) := by
        rw [hf, hdec]
        exact List.mem_append.mpr (Or.inr (List.mem_cons_self _ _))
      have hmf := List.mem_filter.mp hmem
      refine ⟨by simpa using hmf.2, ?_, ?_⟩
      · intro s2 hs2 hh2
        have : s2 ∈ l.filter (fun s => s.health = HealthStatus.healthy) :=
          List.mem_filter.mpr ⟨hs2, by simp [hh2]⟩
        rw [hf] at this
        rcases List.mem_cons.mp this with hcase | hcase
        · subst hcase; exact (maxByScore_ge t s2).1
        · exact (maxByScore_ge t h).2 s2 hcase
      · have hfil : l.filter (fun s => s.health = HealthStatus.healthy)
            = p ++ maxByScore h t :: s := by rw [hf, hdec]
        rcases filter_decomp _ l p (maxByScore h t) s hfil with ⟨l1, l2, hd, hp⟩
        refine ⟨l1, l2, hd, ?_⟩
        intro s2 hs2 hh2
        have : s2 ∈ l1.filter (fun s => s.health = HealthStatus.healthy) :=
          List.mem_filter.mpr ⟨hs2, by simp [hh2]⟩
        rw [hp] at this
        exact hlt s2 this

/-- Snapshot record scoring 80, Healthy. -/
def rec80 : ServerHealth :=
  { name := "server2", url := "https://go.aimachengine.com",
    health := HealthStatus.healthy, response_time := some 20, score := 80,
    status_code := some 200, error := none }

/-- Snapshot record scoring 95, Healthy. -/
def rec95 : ServerHealth :=
  { name := "server3", url := "https://go1.aimachengine.com",
    health := HealthStatus.healthy, response_time := some 12, score := 95,
    status_code := some 200, error := none }

/-- Snapshot record whose numeric score field reads 100 but whose status is
Unhealthy. -/
def recU100 : ServerHealth :=
  { name := "server4", url := "https://go2.aimachengine.com",
    health := HealthStatus.unhealthy, response_time := some 5, score := 100,
    status_code := some 500, error := none }

/-- The snapshot [Healthy:80, Healthy:95, Unhealthy:100] of the selector
example in the spec. -/
def snapA : List ServerHealth := [rec80, rec95, recU100]

/-- Witness for claim C4: over `snapA` the selector returns the 95-scoring
Healthy record, a member of the snapshot, never the 100-scoring Unhealthy
one. -/
theorem best_over_snapA_witness :
    selectBest snapA = some rec95 ∧ rec95 ∈ snapA ∧
      rec95.health = HealthStatus.healthy := by
  have h := (best_is_max_over_healthy_only snapA).2 rec95 (by rfl)
  exact ⟨by rfl, h.1, h.2.1⟩

/-- Tie record scoring 90 at the earlier snapshot position. -/
def rec90a : ServerHealth :=
  { name := "server5", url := "https://1.aimachengine.com",
    health := HealthStatus.healthy, response_time := some 30, score := 90,
    status_code := some 200, error := none }

/-- Tie record scoring 90 at the later snapshot position. -/
def rec90b : ServerHealth :=
  { name := "server6", url := "https://2.aimachengine.com",
    health := HealthStatus.healthy, response_time := some 31, score := 90,
    status_code := some 200, error := none }

/-- Snapshot with two Healthy records tied at 90. -/
def snapB : List ServerHealth := [recU100, rec90a, rec90b]

/-- Witness for claim C5: over `snapB`, whose two Healthy records tie at 90,
the selector returns the earlier one. -/
theorem best_tie_witness :
    selectBest snapB = some rec90a ∧ rec90a.health = HealthStatus.healthy :=
  ⟨by rfl, (best_ties_break_to_first_position snapB rec90a (by rfl)).1⟩

/-! Snapshot over the whole registry (claims C8, C9). -/

lemma check_all_length (hc : HealthChecker) (servers : List ServerConfig)
    (now : ℚ) (outcomes : String → ProbeOutcome) :
    (check_all_servers hc servers now outcomes).1.length = servers.length := by
  induction servers generalizing hc with
  | nil => rfl
  | cons s rest ih =>
      simp only [check_all_servers, List.length_cons]
      rw [ih]

lemma probeResult_name (s : ServerConfig) (o : ProbeOutcome) :
    (probeResult s o).name = s.name := by
  cases o with
  | transportError m => rfl
  | response code body rt =>
      simp only [probeResult]
      split
      · cases body <;> rfl
      · rfl

lemma probeResult_url (s : ServerConfig) (o : ProbeOutcome) :
    (probeResult s o).url = s.url := by
  cases o with
  | transportError m => rfl
  | response code body rt =>
      simp only [probeResult]
      split
      · cases body <;> rfl
      · rfl

/-- Invariant tying cached records to the registry: any cached record carries
the url it is keyed under, and the name of any registry member owning that
url. -/
def CacheNames (servers : List ServerConfig)
    (cache : List (String × ServerHealth × ℚ)) : Prop :=
  ∀ u rec ts, cacheLookup cache u = some (rec, ts) →
    rec.url = u ∧ ∀ s ∈ servers, s.url = u → rec.name = s.name

lemma check_server_record_name_url (servers : List ServerConfig)
    (s : ServerConfig) (hs : s ∈ servers) (hc : HealthChecker) (now : ℚ)
    (o : ProbeOutcome) (hinv : CacheNames servers hc.cache) :
    (check_server hc s now o).1.name = s.name ∧
      (check_server hc s now o).1.url = s.url := by
  cases hl : cacheLookup hc.cache s.url with
  | none =>
      rw [check_server_absent hc s now o hl]
      exact ⟨probeResult_name s o, probeResult_url s o⟩
  | some p =>
      obtain ⟨rec, ts⟩ := p
      by_cases hfresh : now - ts < (hc.cache_ttl : ℚ)
      · rw [check_server_hit hc s now o rec ts hl hfresh]
        have h := hinv s.url rec ts hl
        exact ⟨h.2 s hs rfl, h.1⟩
      · rw [check_server_stale hc s now o rec ts hl hfresh]
        exact ⟨probeResult_name s o, probeResult_url s o⟩

lemma check_server_preserves_inv (rest : List ServerConfig) (s : ServerConfig)
    (hc : HealthChecker) (now : ℚ) (o : ProbeOutcome)
    (hinv : CacheNames (s :: rest) hc.cache)
    (hp : ∀ s1 ∈ s :: rest, ∀ s2 ∈ s :: rest,
      s1.url = s2.url → s1.name = s2.name) :
    CacheNames rest (check_server hc s now o).2.1.cache := by
  have hweak : CacheNames rest hc.cache := by
    intro u rec ts h
    have h2 := hinv u rec ts h
    exact ⟨h2.1, fun s2 hs2 => h2.2 s2 (List.mem_cons_of_mem s hs2)⟩
  have hnew : CacheNames rest
      (cacheInsert hc.cache s.url (probeResult s o) now) := by
    intro u rec ts h
    simp only [cacheInsert, cacheLookup] at h
    by_cases hu : s.url = u
    · rw [if_pos hu] at h
      have hrec : probeResult s o = rec ∧ now = ts := by
        have h3 := (Option.some.injEq _ _).mp h
        exact ⟨congrArg Prod.fst h3, congrArg Prod.snd h3⟩
      refine ⟨by rw [← hrec.1, probeResult_url, hu], ?_⟩
      intro s2 hs2 hu2
      rw [← hrec.1, probeResult_name]
      exact hp s (List.mem_cons_self s rest) s2 (List.mem_cons_of_mem s hs2)
        (by rw [hu, ← hu2])
    · rw [if_neg hu] at h
      exact hweak u rec ts h
  cases hl : cacheLookup hc.cache s.url with
  | none => rw [check_server_absent hc s now o hl]; exact hnew
  | some p =>
      obtain ⟨rec, ts⟩ := p
      by_cases hfresh : now - ts < (hc.cache_ttl : ℚ)
      · rw [check_server_hit hc s now o rec ts hl hfresh]; exact hweak
      · rw [check_server_stale hc s now o rec ts hl hfresh]; exact hnew

lemma check_all_names (servers : List ServerConfig) :
    ∀ (hc : HealthChecker) (now : ℚ) (outcomes : String → ProbeOutcome),
    CacheNames servers hc.cache →
    (∀ s1 ∈ servers, ∀ s2 ∈ servers, s1.url = s2.url → s1.name = s2.name) →
    ∀ i srv, servers.get? i = some srv →
      ∃ rec, (check_all_servers hc servers now outcomes).1.get? i = some rec ∧
        rec.name = srv.name ∧ rec.url = srv.url := by
  induction servers with
  | nil =>
      intro hc now outcomes _ _ i srv hget
      simp at hget
  | cons s rest ih =>
      intro hc now outcomes hinv hp i srv hget
      have hhd := check_server_record_name_url (s :: rest) s
        (List.mem_cons_self s rest) hc now (outcomes s.url) hinv
      have hinv2 := check_server_preserves_inv rest s hc now
        (outcomes s.url) hinv hp
      have hp2 : ∀ s1 ∈ rest, ∀ s2 ∈ rest, s1.url = s2.url → s1.name = s2.name :=
        fun s1 h1 s2 h2 =>
          hp s1 (List.mem_cons_of_mem s h1) s2 (List.mem_cons_of_mem s h2)
      cases i with
      | zero =>
          have hsrv : s = srv := by
            have h2 : some s = some srv := hget
            exact (Option.some.injEq _ _).mp h2
          subst hsrv
          exact ⟨(check_server hc s now (outcomes s.url)).1, rfl, hhd.1, hhd.2⟩
      | succ i2 =>
          have hget2 : rest.get? i2 = some srv := hget
          rcases ih (check_server hc s now (outcomes s.url)).2.1 now outcomes
            hinv2 hp2 i2 srv hget2 with ⟨rec, hr, hn, hu⟩
          exact ⟨rec, hr, hn, hu⟩

/-- Claim C8: the snapshot returns exactly one record per registry member, in
registry order, the record at position i naming the server at position i.
Probes run concurrently, but the result list is assembled by submission
index (`futures` order), never by completion order — the sequential
state-threaded model.  Hypothesis: in the registry, a url determines a name
(the configuration contract; the cache is keyed by url alone, so an alias of
the same url under two names would serve the cached record of one name for the
other). -/
theorem snapshot_preserves_registry_order (t r c : Int)
    (servers : List ServerConfig) (now : ℚ) (outcomes : String → ProbeOutcome)
    (H : ∀ s1 ∈ servers, ∀ s2 ∈ servers, s1.url = s2.url → s1.name = s2.name) :
    (check_all_servers (healthCheckerInit t r c) servers now outcomes).1.length
        = servers.length ∧
    ∀ i srv, servers.get? i = some srv →
      ∃ rec,
        (check_all_servers (healthCheckerInit t r c) servers now outcomes).1.get? i
            = some rec ∧
        rec.name = srv.name ∧ rec.url = srv.url := by
  refine ⟨check_all_length _ servers now outcomes, ?_⟩
  refine check_all_names servers (healthCheckerInit t r c) now outcomes ?_ H
  intro u rec ts h
  cases h

/-- Two-member registry used by the claim C8 witness. -/
def regA : List ServerConfig :=
  [{ name := "server1", url := "https://landing1.aimachengine.com" },
   { name := "server2", url := "https://go.aimachengine.com" }]

/-- Witness for claim C8: a snapshot of the two-member registry (every probe
failing at transport) still returns one record per member. -/
theorem snapshot_order_witness :
    (check_all_servers (healthCheckerInit 3 2 10) regA 100
        (fun _ => ProbeOutcome.transportError "down")).1.length
      = regA.length :=
  (snapshot_preserves_registry_order 3 2 10 regA 100
      (fun _ => ProbeOutcome.transportError "down") (by decide)).1

/-- Claim C9: a transport failure is absorbed into the record — status Error,
null response time, score 0, the cause as error detail — and never escapes as
an exception: a snapshot over any outcomes, transport failures included,
still yields one record per registry member. -/
theorem transport_failure_absorbed (server : ServerConfig) (msg : String)
    (hc : HealthChecker) (servers : List ServerConfig) (now : ℚ)
    (outcomes : String → ProbeOutcome) :
    probeResult server (ProbeOutcome.transportError msg) =
      { name := server.name, url := server.url, health := HealthStatus.error,
        response_time := none, score := 0, status_code := none,
        error := some msg } ∧
    (check_all_servers hc servers now outcomes).1.length = servers.length :=
  ⟨rfl, check_all_length hc servers now outcomes⟩

end SalesStar
